import Mathlib

/-!
# tfmigrate: the state migrator pipeline and the history ledger

A shallow embedding of `tfmigrate/state_migrator.go` (`plan`, `Plan`, `Apply`)
and of the `History` container exercised by `history/history_test.go`.

The Terraform client (`tfexec.TerraformCLI`), the migration actions
(`StateAction`) and the operating system are collaborators whose code is not
part of the embedded file.  They are taken as parameters: every operation is an
arbitrary function of an external state `σ`, returning its result together
with the next external state.  A run records every call it makes, with the
result it received, in a list of `Event`s; the calls an action makes on the
client it is handed are part of that action and are not recorded.

The existence of the override file is tracked by a flag of the world.  Only
the migrator changes it: a successful `ioutil.WriteFile` creates the file, a
failed one leaves the directory as it was, and `os.Remove`, whose result the
source discards, deletes it.
-/

namespace Tfmigrate

/-! ## Errors and state values -/

/-- Go `error` values.  `exit code msg` is an error whose dynamic type
implements `tfexec.ExitError` (it has an `ExitCode()`); `plain msg` is any
other error.  `msg` is what `Error()` returns. -/
inductive Error where
  | exit (code : Int) (msg : String)
  | plain (msg : String)
  deriving DecidableEq, Repr

/-- The `Error()` method of a Go error: its message. -/
def Error.Message : Error → String
  | .exit _ msg => msg
  | .plain msg => msg

/-- The type assertion `err.(tfexec.ExitError)` followed by `ExitCode()`:
`none` when the assertion fails. -/
def Error.ExitCode : Error → Option Int
  | .exit code _ => some code
  | .plain _ => none

/-- The call `fmt.Errorf(prefix ++ "%s", err)`: a fresh error that is not an
`ExitError`, whose message is the prefix followed by the message of `err`. -/
def Errorf (pre : String) (err : Error) : Error :=
  .plain (pre ++ err.Message)

/-- Modelled from the spec: `tfexec.State` (its declaring file is not among the
sources), a serialized snapshot of infrastructure state, treated as an
immutable byte sequence that the migrator never inspects. -/
structure State where
  bytes : List Nat
  deriving DecidableEq, Repr

/-- Modelled from the spec: `tfexec.NewState`, which wraps a byte sequence. -/
def NewState (b : List Nat) : State := ⟨b⟩

/-- Modelled from the spec: `(*tfexec.State).Bytes`. -/
def State.Bytes (s : State) : List Nat := s.bytes

deriving instance DecidableEq for Except

/-- Outcome of a call returning `(value, error)`. -/
abbrev Res (α : Type) : Type := Except Error α

/-! ## Collaborators -/

/-- The methods of `tfexec.TerraformCLI` used by the migrator.  Each one reads
the external state and returns its result with the next external state, so a
value of this type is an arbitrary (deterministic, history-dependent) tool
client.  The first result of `Plan`, which the migrator discards, is omitted. -/
structure TerraformCLI (σ : Type) where
  Version : σ → Res String × σ
  Init : String → List String → σ → Option Error × σ
  StatePull : σ → Res State × σ
  Plan : State → String → List String → σ → Option Error × σ
  StatePush : State → σ → Option Error × σ

/-- The `StateAction` interface: `StateUpdate(ctx, tf, state)`. -/
structure StateAction (σ : Type) where
  StateUpdate : TerraformCLI σ → State → σ → Res State × σ

/-- The standard-library calls whose result the migrator inspects:
`filepath.Join` and `ioutil.WriteFile` (path, contents, permission). -/
structure OS (σ : Type) where
  Join : String → String → String
  WriteFile : String → String → Nat → σ → Option Error × σ

/-- The `StateMigrator` struct. -/
structure StateMigrator (σ : Type) where
  tf : TerraformCLI σ
  dir : String
  actions : List (StateAction σ)

/-! ## Worlds, events and outcomes -/

/-- What a run can change: the external state, and whether the override file
`_tfmigrate_override.tf` exists in the working directory. -/
structure World (σ : Type) where
  ext : σ
  overrideFile : Bool

/-- One call made by the migrator, with the result it got back. -/
inductive Event where
  | Version (r : Res String)
  | Init (dir : String) (opts : List String) (err : Option Error)
  | StatePull (r : Res State)
  | WriteFile (path : String) (contents : String) (perm : Nat) (err : Option Error)
  | Remove (path : String)
  | StateUpdate (i : Nat) (s : State) (r : Res State)
  | Plan (s : State) (dir : String) (opts : List String) (err : Option Error)
  | StatePush (s : State) (err : Option Error)
  deriving DecidableEq, Repr

/-- Result of running a piece of the migrator: the returned value, the world
it leaves behind and the calls it made, in order. -/
structure Outcome (σ : Type) (α : Type) where
  result : α
  world : World σ
  calls : List Event

/-- Prefix an outcome with a call that was made before it. -/
def Outcome.after {σ α : Type} (ev : Event) (o : Outcome σ α) : Outcome σ α :=
  { o with calls := ev :: o.calls }

/-! ## The pipeline of `state_migrator.go` -/

/-- The local `overrideFilePath` of `plan`:
`filepath.Join(m.dir, "_tfmigrate_override.tf")`. -/
def overrideFilePath {σ : Type} (m : StateMigrator σ) (os : OS σ) : String :=
  os.Join m.dir "_tfmigrate_override.tf"

/-- Contents written to the override file. -/
def overrideContents : String :=
  "\nterraform \x7b\n  backend \"local\" \x7b\n  \x7d\n\x7d\n"

/-- Options of the first `tf.Init`. -/
def initOpts : List String := ["-input=false", "-no-color"]

/-- Options of the `tf.Init` calls that switch the backend. -/
def reconfigureOpts : List String := ["-input=false", "-no-color", "-reconfigure"]

/-- Options of the diff-check `tf.Plan`. -/
def planOpts : List String := ["-input=false", "-no-color", "-detailed-exitcode"]

/-- The `for _, action := range m.actions` loop of `plan`: action number `i`
receives `currentState`; on an error the loop returns it at once, otherwise
the next action receives `NewState(newState.Bytes())`. -/
def applyActions {σ : Type} (tf : TerraformCLI σ) :
    List (StateAction σ) → Nat → State → World σ → Outcome σ (Res State)
  | [], _, currentState, w => ⟨.ok currentState, w, []⟩
  | action :: rest, i, currentState, w =>
    match action.StateUpdate tf currentState w.ext with
    | (.error err, x) =>
      ⟨.error err, { w with ext := x }, [.StateUpdate i currentState (.error err)]⟩
    | (.ok newState, x) =>
      Outcome.after (.StateUpdate i currentState (.ok newState))
        (applyActions tf rest (i + 1) (NewState newState.Bytes) { w with ext := x })

/-- The diff-check at the end of `plan`: `tf.Plan` with `-detailed-exitcode`
and the classification of its error. -/
def diffCheck {σ : Type} (tf : TerraformCLI σ) (currentState : State) (w : World σ) :
    Outcome σ (Res State) :=
  match tf.Plan currentState "" planOpts w.ext with
  | (some err, x) =>
    if err.ExitCode = some 2 then
      ⟨.error (Errorf "terraform plan command returns unexpected diffs: " err),
        { w with ext := x }, [.Plan currentState "" planOpts (some err)]⟩
    else
      ⟨.error err, { w with ext := x }, [.Plan currentState "" planOpts (some err)]⟩
  | (none, x) =>
    ⟨.ok currentState, { w with ext := x }, [.Plan currentState "" planOpts none]⟩

/-- The part of `plan` that runs under the deferred rollback: the action loop
followed, when every action succeeded, by the diff-check. -/
def migrate {σ : Type} (m : StateMigrator σ) (currentState : State) (w : World σ) :
    Outcome σ (Res State) :=
  match applyActions m.tf m.actions 0 currentState w with
  | ⟨.error err, w1, calls⟩ => ⟨.error err, w1, calls⟩
  | ⟨.ok newState, w1, calls⟩ =>
    let o := diffCheck m.tf newState w1
    { o with calls := calls ++ o.calls }

/-- The deferred function of `plan`: `os.Remove(overrideFilePath)` followed by
`tf.Init` with `-reconfigure`; both results are discarded.  Removing the file
is modelled as succeeding. -/
def rollback {σ α : Type} (m : StateMigrator σ) (os : OS σ) (o : Outcome σ α) :
    Outcome σ α :=
  match m.tf.Init "" reconfigureOpts o.world.ext with
  | (r, x) =>
    { result := o.result
      world := { ext := x, overrideFile := false }
      calls := o.calls ++ [.Remove (overrideFilePath m os),
                           .Init "" reconfigureOpts r] }

/-- The method `(*StateMigrator).plan`. -/
def StateMigrator.plan {σ : Type} (m : StateMigrator σ) (os : OS σ) (w : World σ) :
    Outcome σ (Res State) :=
  match m.tf.Version w.ext with
  | (.error err, x1) => ⟨.error err, { w with ext := x1 }, [.Version (.error err)]⟩
  | (.ok version, x1) =>
    Outcome.after (.Version (.ok version)) <|
    match m.tf.Init "" initOpts x1 with
    | (some err, x2) => ⟨.error err, { w with ext := x2 }, [.Init "" initOpts (some err)]⟩
    | (none, x2) =>
      Outcome.after (.Init "" initOpts none) <|
      match m.tf.StatePull x2 with
      | (.error err, x3) => ⟨.error err, { w with ext := x3 }, [.StatePull (.error err)]⟩
      | (.ok currentState, x3) =>
        Outcome.after (.StatePull (.ok currentState)) <|
        match os.WriteFile (overrideFilePath m os) overrideContents 0o644 x3 with
        | (some err, x4) =>
          ⟨.error (Errorf "failed to create override file: " err), { w with ext := x4 },
            [.WriteFile (overrideFilePath m os) overrideContents 0o644 (some err)]⟩
        | (none, x4) =>
          Outcome.after
            (.WriteFile (overrideFilePath m os) overrideContents 0o644 none) <|
          match m.tf.Init "" reconfigureOpts x4 with
          | (some err, x5) =>
            ⟨.error err, { ext := x5, overrideFile := true },
              [.Init "" reconfigureOpts (some err)]⟩
          | (none, x5) =>
            Outcome.after (.Init "" reconfigureOpts none) <|
            rollback m os (migrate m currentState { ext := x5, overrideFile := true })

/-- The method `(*StateMigrator).Plan`: the error of `plan`. -/
def StateMigrator.Plan {σ : Type} (m : StateMigrator σ) (os : OS σ) (w : World σ) :
    Outcome σ (Option Error) :=
  match m.plan os w with
  | ⟨.error err, w1, calls⟩ => ⟨some err, w1, calls⟩
  | ⟨.ok _, w1, calls⟩ => ⟨none, w1, calls⟩

/-- The method `(*StateMigrator).Apply`: `plan`, then `tf.StatePush` of the
state it returned. -/
def StateMigrator.Apply {σ : Type} (m : StateMigrator σ) (os : OS σ) (w : World σ) :
    Outcome σ (Option Error) :=
  match m.plan os w with
  | ⟨.error err, w1, calls⟩ => ⟨some err, w1, calls⟩
  | ⟨.ok state, w1, calls⟩ =>
    match m.tf.StatePush state w1.ext with
    | (r, x) => ⟨r, { w1 with ext := x }, calls ++ [.StatePush state r]⟩

/-! ## Reading the list of calls -/

/-- Calls made while preparing the working directory, before any action. -/
def Event.isSetup : Event → Bool
  | .Version _ => true
  | .Init _ _ _ => true
  | .StatePull _ => true
  | .WriteFile _ _ _ _ => true
  | _ => false

/-- Calls of `tf.StatePush`. -/
def Event.isStatePush : Event → Bool
  | .StatePush _ _ => true
  | _ => false

/-- The `tf.StatePush` calls of a run, in order. -/
def pushes (calls : List Event) : List Event := calls.filter Event.isStatePush

/-- The calls of a preparation in which every step succeeded: version, init,
state pull, writing the override file at `path`, init with `-reconfigure`. -/
def setupCalls (path : String) (version : String) (s0 : State) : List Event :=
  [.Version (.ok version), .Init "" initOpts none, .StatePull (.ok s0),
   .WriteFile path overrideContents 0o644 none, .Init "" reconfigureOpts none]

/-- The calls of a loop in which every action succeeds, in the words of the
specification: action number `i` receives `s` and produces the first state of
`outs`, the next action receives the bytes of that state, and so on. -/
def chainEvents : Nat → State → List State → List Event
  | _, _, [] => []
  | i, s, out :: outs =>
    .StateUpdate i s (.ok out) :: chainEvents (i + 1) (NewState out.Bytes) outs

/-- The state left by that loop: `s` itself when no action ran, otherwise the
bytes of the state produced by the last action. -/
def chainFinal : State → List State → State
  | s, [] => s
  | _, out :: outs => chainFinal (NewState out.Bytes) outs

/-- One step of the fold of the specification: the next action receives the
state produced so far and its bytes become the new state; an error stops the
threading. -/
def threadStep {σ : Type} (tf : TerraformCLI σ) (acc : Res State × σ) (a : StateAction σ) :
    Res State × σ :=
  match acc with
  | (.ok s, x) =>
    match a.StateUpdate tf s x with
    | (.ok out, x1) => (.ok (NewState out.Bytes), x1)
    | (.error e, x1) => (.error e, x1)
  | (.error e, x) => (.error e, x)

/-- The fold of the specification: the actions applied in the supplied order,
from the left, over the pulled state `s0`, starting at external state `x`. -/
def threadActions {σ : Type} (tf : TerraformCLI σ) (actions : List (StateAction σ))
    (s0 : State) (x : σ) : Res State × σ :=
  actions.foldl (threadStep tf) (.ok s0, x)

/-- The preparation of `plan` succeeds from world `w`: version, init, state
pull (giving `s0`), the writing of the override file and the init with
`-reconfigure` all return without error, leaving the external state `x`. -/
def Prepared {σ : Type} (m : StateMigrator σ) (os : OS σ) (w : World σ)
    (version : String) (s0 : State) (x : σ) : Prop :=
  ∃ x1 x2 x3 x4,
    m.tf.Version w.ext = (.ok version, x1) ∧
    m.tf.Init "" initOpts x1 = (none, x2) ∧
    m.tf.StatePull x2 = (.ok s0, x3) ∧
    os.WriteFile (overrideFilePath m os) overrideContents 0o644 x3 = (none, x4) ∧
    m.tf.Init "" reconfigureOpts x4 = (none, x)

/-- The three-way classification of the diff-check result, in the words of the
specification: no error gives the migrated state, an `ExitError` with exit
code 2 gives a new unexpected-diffs error, any other error is returned as is. -/
def classify (s : State) : Option Error → Res State
  | none => .ok s
  | some (.exit 2 msg) =>
    .error (.plain ("terraform plan command returns unexpected diffs: " ++ msg))
  | some err => .error err

/-! ## The history ledger

`history/history.go` is not among the sources; only its test file is.  The
types are read off the test file and the operations follow the specification. -/

/-- Modelled from the spec: the `Record` struct (declared in the missing
`history.go`), with the fields used by the tests; `AppliedAt` is a timestamp. -/
structure Record where
  Type_ : String
  Name : String
  AppliedAt : Int
  deriving DecidableEq, Repr

/-- Modelled from the spec: the `History` struct (declared in the missing
`history.go`), a mapping from migration identifier to record in which an
identifier maps to at most one record. -/
structure History where
  records : AList (fun _ : String => Record)

/-- Modelled from the spec: `History.Add` of the missing `history.go`,
"insert or overwrite". -/
def History.Add (h : History) (filename : String) (r : Record) : History :=
  ⟨h.records.insert filename r⟩

/-- Modelled from the spec: `History.Contains` of the missing `history.go`. -/
def History.Contains (h : History) (filename : String) : Bool :=
  (h.records.lookup filename).isSome

/-- Modelled from the spec: `History.Delete` of the missing `history.go`,
"no-op if absent". -/
def History.Delete (h : History) (filename : String) : History :=
  ⟨h.records.erase filename⟩

/-- Modelled from the spec: `History.Clear` of the missing `history.go`,
"removes all records". -/
def History.Clear (_h : History) : History :=
  ⟨∅⟩

/-- Modelled from the spec: `History.Length` of the missing `history.go`, the
number of entries of the mapping. -/
def History.Length (h : History) : Nat :=
  h.records.entries.length

/-! ## Scripted collaborators used to exercise the theorems -/

/-- A scripted tool client over a call counter: version `"1.0.0"`, a pulled
state of one byte, a diff-check answering `planErr`, and an `Init` that fails
from the call counter `initFailFrom` on. -/
def scriptedTool (planErr : Option Error) (initFailFrom : Nat) : TerraformCLI Nat where
  Version := fun n => (.ok "1.0.0", n + 1)
  Init := fun _ _ n =>
    (if initFailFrom ≤ n then some (.exit 1 "init failed") else none, n + 1)
  StatePull := fun n => (.ok ⟨[0]⟩, n + 1)
  Plan := fun _ _ _ n => (planErr, n + 1)
  StatePush := fun _ n => (none, n + 1)

/-- An action appending one byte to the state. -/
def appendByte (b : Nat) : StateAction Nat where
  StateUpdate := fun _ s n => (.ok ⟨s.bytes ++ [b]⟩, n + 1)

/-- An action that always fails. -/
def failingAction : StateAction Nat where
  StateUpdate := fun _ _ n => (.error (.plain "action failed"), n + 1)

/-- An operating system on which writing the override file succeeds. -/
def plainOS : OS Nat where
  Join := fun d f => d ++ "/" ++ f
  WriteFile := fun _ _ _ n => (none, n + 1)

/-- A fresh world: call counter zero, no override file. -/
def freshWorld : World Nat := ⟨0, false⟩

/-- Happy path: one action, no diff. -/
def happyMigrator : StateMigrator Nat :=
  ⟨scriptedTool none 100, "work", [appendByte 1]⟩

/-- Rejected migration: one action, the diff-check exits with code 2. -/
def diffMigrator : StateMigrator Nat :=
  ⟨scriptedTool (some (.exit 2 "exit status 2")) 100, "work", [appendByte 1]⟩

/-- Diff-check failing with an exit code other than 2. -/
def brokenPlanMigrator : StateMigrator Nat :=
  ⟨scriptedTool (some (.exit 1 "exit status 1")) 100, "work", [appendByte 1]⟩

/-- Second of three actions fails. -/
def failingMigrator : StateMigrator Nat :=
  ⟨scriptedTool none 100, "work", [appendByte 1, failingAction, appendByte 3]⟩

/-- The `Init` with `-reconfigure` that follows the writing of the override
file (call number 4) fails. -/
def reinitFailMigrator : StateMigrator Nat :=
  ⟨scriptedTool none 4, "work", [appendByte 1]⟩

/-- The cleanup `Init` (call number 7) fails, everything before it succeeds. -/
def cleanupFailMigrator : StateMigrator Nat :=
  ⟨scriptedTool none 7, "work", [appendByte 1]⟩

/-- A small history with one record. -/
def sampleHistory : History :=
  (History.mk ∅).Add "20201012010101_foo.hcl" ⟨"state", "foo", 1602550923⟩

/-! ## Shape of a run -/

/-- Every call of a successful loop is a successful `StateUpdate` whose index lies
in the range of the loop. -/
theorem chainEvents_mem {ev : Event} {i : Nat} {s : State} {outs : List State}
    (h : ev ∈ chainEvents i s outs) :
    ∃ j s' out, ev = .StateUpdate j s' (.ok out) ∧ i ≤ j ∧ j < i + outs.length := by
  induction outs generalizing i s with
  | nil => simp [chainEvents] at h
  | cons out outs ih =>
    simp only [chainEvents, List.mem_cons] at h
    rcases h with h | h
    · exact ⟨i, s, out, h, le_refl _, by simp⟩
    · obtain ⟨j, s', out', he, h1, h2⟩ := ih h
      exact ⟨j, s', out', he, by omega, by simp only [List.length_cons]; omega⟩

/-- The action loop does not touch the override file. -/
theorem applyActions_overrideFile {σ : Type} (tf : TerraformCLI σ) (as : List (StateAction σ))
    (i : Nat) (s : State) (w : World σ) :
    (applyActions tf as i s w).world.overrideFile = w.overrideFile := by
  induction as generalizing i s w with
  | nil => rfl
  | cons a as ih =>
    simp only [applyActions]
    split
    · rfl
    · simp [Outcome.after, ih]

/-- The action loop either runs every action successfully, or stops at the
first failing action after a successful chain. -/
theorem applyActions_shape {σ : Type} (tf : TerraformCLI σ) (as : List (StateAction σ))
    (i : Nat) (s : State) (w : World σ) :
    (∃ outs, outs.length = as.length ∧
      (applyActions tf as i s w).result = .ok (chainFinal s outs) ∧
      (applyActions tf as i s w).calls = chainEvents i s outs) ∨
    (∃ outs e, outs.length < as.length ∧
      (applyActions tf as i s w).result = .error e ∧
      (applyActions tf as i s w).calls =
        chainEvents i s outs ++
          [.StateUpdate (i + outs.length) (chainFinal s outs) (.error e)]) := by
  induction as generalizing i s w with
  | nil => exact Or.inl ⟨[], rfl, rfl, rfl⟩
  | cons a as ih =>
    simp only [applyActions]
    split
    · next err x _ =>
      exact Or.inr ⟨[], err, by simp, rfl, by simp [chainEvents, chainFinal]⟩
    · next newState x _ =>
      rcases ih (i + 1) (NewState newState.Bytes) { w with ext := x } with
        ⟨outs, hl, hr, hc⟩ | ⟨outs, e, hl, hr, hc⟩
      · exact Or.inl ⟨newState :: outs, by simp [hl],
          by simpa [Outcome.after, chainFinal] using hr,
          by simp [Outcome.after, chainEvents, hc]⟩
      · refine Or.inr ⟨newState :: outs, e, by simp only [List.length_cons]; omega,
          by simpa [Outcome.after] using hr, ?_⟩
        simp [Outcome.after, chainEvents, chainFinal, hc, Nat.add_assoc, Nat.add_comm 1]

/-- Once an action has failed, the fold of the specification keeps the error. -/
theorem threadActions_error {σ : Type} (tf : TerraformCLI σ) (as : List (StateAction σ))
    (e : Error) (x : σ) : as.foldl (threadStep tf) (.error e, x) = (.error e, x) := by
  induction as with
  | nil => rfl
  | cons a as ih => simpa [List.foldl_cons, threadStep] using ih

/-- The loop of `plan` computes the fold of the specification: same result and
same external state. -/
theorem applyActions_thread {σ : Type} (tf : TerraformCLI σ) (as : List (StateAction σ))
    (i : Nat) (s : State) (w : World σ) :
    ((applyActions tf as i s w).result, (applyActions tf as i s w).world.ext) =
      threadActions tf as s w.ext := by
  induction as generalizing i s w with
  | nil => rfl
  | cons a as ih =>
    simp only [applyActions, threadActions, List.foldl_cons]
    split
    · next err x heq =>
      simp only [threadStep, heq]
      exact (threadActions_error tf as err x).symm
    · next newState x heq =>
      simp only [threadStep, heq, Outcome.after]
      exact ih (i + 1) (NewState newState.Bytes) { w with ext := x }

/-- The diff-check makes one `tf.Plan` call and classifies its result. -/
theorem diffCheck_shape {σ : Type} (tf : TerraformCLI σ) (s : State) (w : World σ) :
    ∃ r, (diffCheck tf s w).result = classify s r ∧
      (diffCheck tf s w).calls = [.Plan s "" planOpts r] ∧
      (diffCheck tf s w).world.overrideFile = w.overrideFile ∧
      r = (tf.Plan s "" planOpts w.ext).1 := by
  unfold diffCheck
  split
  · next err x heq =>
    refine ⟨some err, ?_, ?_, ?_, by rw [heq]⟩
    · cases err with
      | exit code msg =>
        by_cases hc : code = 2
        · subst hc; simp [Error.ExitCode, classify, Errorf, Error.Message]
        · simp [Error.ExitCode, hc, classify]
      | plain msg => simp [Error.ExitCode, classify]
    · split <;> rfl
    · split <;> rfl
  · next x heq => exact ⟨none, rfl, rfl, rfl, by rw [heq]⟩

/-- The loop followed by the diff-check: a full chain and one diff-check, or a
chain stopped by a failing action. -/
theorem migrate_shape {σ : Type} (m : StateMigrator σ) (s0 : State) (w : World σ) :
    ((∃ outs r, outs.length = m.actions.length ∧
        (migrate m s0 w).result = classify (chainFinal s0 outs) r ∧
        (migrate m s0 w).calls =
          chainEvents 0 s0 outs ++ [.Plan (chainFinal s0 outs) "" planOpts r] ∧
        ∃ x, threadActions m.tf m.actions s0 w.ext = (.ok (chainFinal s0 outs), x) ∧
          r = (m.tf.Plan (chainFinal s0 outs) "" planOpts x).1) ∨
      (∃ outs e, outs.length < m.actions.length ∧
        (migrate m s0 w).result = .error e ∧
        (migrate m s0 w).calls =
          chainEvents 0 s0 outs ++
            [.StateUpdate outs.length (chainFinal s0 outs) (.error e)])) ∧
    (migrate m s0 w).world.overrideFile = w.overrideFile := by
  have hf := applyActions_overrideFile m.tf m.actions 0 s0 w
  have hs := applyActions_shape m.tf m.actions 0 s0 w
  have ht := applyActions_thread m.tf m.actions 0 s0 w
  unfold migrate
  split
  · next err w1 calls heq =>
    rw [heq] at hf hs
    refine ⟨Or.inr ?_, hf⟩
    rcases hs with ⟨outs, _, hr, _⟩ | ⟨outs, e, hl, hr, hc⟩
    · simp at hr
    · simp only [Except.error.injEq] at hr
      subst hr
      exact ⟨outs, err, hl, rfl, by simpa using hc⟩
  · next newState w1 calls heq =>
    rw [heq] at hf hs ht
    obtain ⟨r, hr, hc, hw, hrp⟩ := diffCheck_shape m.tf newState w1
    simp only at hf ht
    refine ⟨Or.inl ?_, by simp [hw, hf]⟩
    rcases hs with ⟨outs, hl, hr', hc'⟩ | ⟨outs, e, _, hr', _⟩
    · simp only [Except.ok.injEq] at hr'
      subst hr'
      simp only at hc'
      exact ⟨outs, r, hl, by simpa using hr, by simp [hc, hc'], w1.ext, ht.symm, hrp⟩
    · simp at hr'

/-- The three ways `plan` can end: during the preparation, at a failing action,
or after the diff-check; in the last two the rollback has run. -/
theorem plan_shape {σ : Type} (m : StateMigrator σ) (os : OS σ) (w : World σ) :
    (∃ e, (m.plan os w).result = .error e ∧
      ∀ ev ∈ (m.plan os w).calls, ev.isSetup = true) ∨
    (∃ version s0 outs e r', outs.length < m.actions.length ∧
      (m.plan os w).result = .error e ∧
      (m.plan os w).calls =
        setupCalls (overrideFilePath m os) version s0 ++
          (chainEvents 0 s0 outs ++
            [.StateUpdate outs.length (chainFinal s0 outs) (.error e),
             .Remove (overrideFilePath m os), .Init "" reconfigureOpts r']) ∧
      (m.plan os w).world.overrideFile = false) ∨
    (∃ version s0 outs r r', outs.length = m.actions.length ∧
      (m.plan os w).result = classify (chainFinal s0 outs) r ∧
      (m.plan os w).calls =
        setupCalls (overrideFilePath m os) version s0 ++
          (chainEvents 0 s0 outs ++
            [.Plan (chainFinal s0 outs) "" planOpts r,
             .Remove (overrideFilePath m os), .Init "" reconfigureOpts r']) ∧
      (m.plan os w).world.overrideFile = false ∧
      ∃ x x', Prepared m os w version s0 x ∧
        threadActions m.tf m.actions s0 x = (.ok (chainFinal s0 outs), x') ∧
        r = (m.tf.Plan (chainFinal s0 outs) "" planOpts x').1) := by
  unfold StateMigrator.plan
  split
  · exact Or.inl ⟨_, rfl, by simp [Event.isSetup]⟩
  split
  · exact Or.inl ⟨_, rfl, by simp [Outcome.after, Event.isSetup]⟩
  split
  · exact Or.inl ⟨_, rfl, by simp [Outcome.after, Event.isSetup]⟩
  split
  · exact Or.inl ⟨_, rfl, by simp [Outcome.after, Event.isSetup]⟩
  split
  · exact Or.inl ⟨_, rfl, by simp [Outcome.after, Event.isSetup]⟩
  next _ version x1 hV _ x2 hI _ s0 x3 hP _ x4 hW _ x5 hR =>
  refine Or.inr ?_
  obtain ⟨hs, hw⟩ := migrate_shape m s0 { ext := x5, overrideFile := true }
  rcases hs with ⟨outs, r, hl, hr, hc, x', ht, hrp⟩ | ⟨outs, e, hl, hr, hc⟩
  · exact Or.inr ⟨version, s0, outs, r,
      (m.tf.Init "" reconfigureOpts
        (migrate m s0 { ext := x5, overrideFile := true }).world.ext).1,
      hl, by simpa [Outcome.after, rollback] using hr,
      by simp [Outcome.after, rollback, setupCalls, hc], by simp [Outcome.after, rollback],
      x5, x', ⟨x1, x2, x3, x4, hV, hI, hP, hW, hR⟩, ht, hrp⟩
  · exact Or.inl ⟨version, s0, outs, e,
      (m.tf.Init "" reconfigureOpts
        (migrate m s0 { ext := x5, overrideFile := true }).world.ext).1,
      hl, by simpa [Outcome.after, rollback] using hr,
      by simp [Outcome.after, rollback, setupCalls, hc], by simp [Outcome.after, rollback]⟩

/-- Every call of a successful preparation is a preparation call. -/
theorem setupCalls_isSetup {path version : String} {s0 : State} {ev : Event}
    (h : ev ∈ setupCalls path version s0) : ev.isSetup = true := by
  simp only [setupCalls, List.mem_cons, List.mem_singleton, List.not_mem_nil, or_false] at h
  rcases h with h | h | h | h | h <;> subst h <;> rfl

/-- A successful loop makes no `tf.StatePush` call. -/
theorem pushes_chainEvents (i : Nat) (s : State) (outs : List State) :
    pushes (chainEvents i s outs) = [] := by
  simp only [pushes, List.filter_eq_nil_iff]
  intro ev hev
  obtain ⟨j, s', out, he, _, _⟩ := chainEvents_mem hev
  subst he
  simp [Event.isStatePush]

/-- The method `plan` never calls `tf.StatePush`. -/
theorem plan_no_push {σ : Type} (m : StateMigrator σ) (os : OS σ) (w : World σ)
    (s : State) (r : Option Error) : Event.StatePush s r ∉ (m.plan os w).calls := by
  intro h
  rcases plan_shape m os w with ⟨e, _, hall⟩ | ⟨v, s0, outs, e, r', _, _, hc, _⟩ |
    ⟨v, s0, outs, r0, r', _, _, hc, _⟩
  · simpa [Event.isSetup] using hall _ h
  · rw [hc] at h
    simp only [List.mem_append, List.mem_cons, List.mem_singleton, List.not_mem_nil,
      or_false] at h
    rcases h with h | h | h
    · simpa [Event.isSetup] using setupCalls_isSetup h
    · obtain ⟨j, s', out, he, _, _⟩ := chainEvents_mem h
      simp at he
    · simp at h
  · rw [hc] at h
    simp only [List.mem_append, List.mem_cons, List.mem_singleton, List.not_mem_nil,
      or_false] at h
    rcases h with h | h | h
    · simpa [Event.isSetup] using setupCalls_isSetup h
    · obtain ⟨j, s', out, he, _, _⟩ := chainEvents_mem h
      simp at he
    · simp at h

/-- When the log of `plan` holds a diff-check call, the result of `plan` is the
classification of what that call returned, and the rollback has run. -/
theorem plan_of_diffCheck {σ : Type} (m : StateMigrator σ) (os : OS σ) (w : World σ)
    (s : State) (d : String) (o : List String) (r : Option Error)
    (h : Event.Plan s d o r ∈ (m.plan os w).calls) :
    ∃ version s0 outs r', outs.length = m.actions.length ∧ s = chainFinal s0 outs ∧
      d = "" ∧ o = planOpts ∧
      (m.plan os w).result = classify s r ∧
      (m.plan os w).calls =
        setupCalls (overrideFilePath m os) version s0 ++
          (chainEvents 0 s0 outs ++
            [.Plan s "" planOpts r,
             .Remove (overrideFilePath m os), .Init "" reconfigureOpts r']) ∧
      (m.plan os w).world.overrideFile = false ∧
      ∃ x x', Prepared m os w version s0 x ∧
        threadActions m.tf m.actions s0 x = (.ok s, x') ∧
        r = (m.tf.Plan s "" planOpts x').1 := by
  rcases plan_shape m os w with ⟨e, _, hall⟩ | ⟨v, s0, outs, e, r', _, _, hc, _⟩ |
    ⟨v, s0, outs, r0, r', hl, hr, hc, hw⟩
  · simpa [Event.isSetup] using hall _ h
  · rw [hc] at h
    simp only [List.mem_append, List.mem_cons, List.mem_singleton, List.not_mem_nil,
      or_false] at h
    rcases h with h | h | h
    · simpa [Event.isSetup] using setupCalls_isSetup h
    · obtain ⟨j, s', out, he, _, _⟩ := chainEvents_mem h
      simp at he
    · simp at h
  · have h' := h
    rw [hc] at h'
    simp only [List.mem_append, List.mem_cons, List.mem_singleton, List.not_mem_nil,
      or_false] at h'
    rcases h' with h' | h' | h'
    · simpa [Event.isSetup] using setupCalls_isSetup h'
    · obtain ⟨j, s', out, he, _, _⟩ := chainEvents_mem h'
      simp at he
    · simp only [Event.Plan.injEq, reduceCtorEq, or_false] at h'
      obtain ⟨hs, hd, ho, hr0⟩ := h'
      subst hs hd ho hr0
      exact ⟨v, s0, outs, r', hl, rfl, rfl, rfl, hr, hc, hw⟩

/-- When the log of `plan` holds a failed `StateUpdate`, `plan` returns that
error, no later action ran, and no diff-check was made. -/
theorem plan_of_actionError {σ : Type} (m : StateMigrator σ) (os : OS σ) (w : World σ)
    (k : Nat) (s : State) (e : Error)
    (h : Event.StateUpdate k s (.error e) ∈ (m.plan os w).calls) :
    (m.plan os w).result = .error e ∧
    (∀ j s' r, Event.StateUpdate j s' r ∈ (m.plan os w).calls → j ≤ k) ∧
    (∀ j s' r, Event.StateUpdate j s' r ∈ (m.plan os w).calls → j < k →
      ∃ out, r = .ok out) ∧
    (∀ s' d o r, Event.Plan s' d o r ∉ (m.plan os w).calls) := by
  rcases plan_shape m os w with ⟨e0, _, hall⟩ | ⟨v, s0, outs, e0, r', _, hr, hc, _⟩ |
    ⟨v, s0, outs, r0, r', _, _, hc, _⟩
  · simpa [Event.isSetup] using hall _ h
  · have h' := h
    rw [hc] at h'
    simp only [List.mem_append, List.mem_cons, List.mem_singleton, List.not_mem_nil,
      or_false] at h'
    rcases h' with h' | h' | h'
    · simpa [Event.isSetup] using setupCalls_isSetup h'
    · obtain ⟨j, s', out, he, _, _⟩ := chainEvents_mem h'
      simp at he
    · simp only [Event.StateUpdate.injEq, Except.error.injEq, reduceCtorEq, or_false] at h'
      obtain ⟨hk, hs, he⟩ := h'
      subst hk hs he
      refine ⟨hr, ?_, ?_, ?_⟩
      · intro j s' r hj
        rw [hc] at hj
        simp only [List.mem_append, List.mem_cons, List.mem_singleton, List.not_mem_nil,
          or_false] at hj
        rcases hj with hj | hj | hj
        · simpa [Event.isSetup] using setupCalls_isSetup hj
        · obtain ⟨j', s'', out, he, _, hlt⟩ := chainEvents_mem hj
          simp only [Event.StateUpdate.injEq] at he
          omega
        · simp only [Event.StateUpdate.injEq, reduceCtorEq, or_false] at hj
          omega
      · intro j s' r hj hlt
        rw [hc] at hj
        simp only [List.mem_append, List.mem_cons, List.mem_singleton, List.not_mem_nil,
          or_false] at hj
        rcases hj with hj | hj | hj
        · simpa [Event.isSetup] using setupCalls_isSetup hj
        · obtain ⟨j', s'', out, he, _, _⟩ := chainEvents_mem hj
          simp only [Event.StateUpdate.injEq] at he
          exact ⟨out, he.2.2⟩
        · simp only [Event.StateUpdate.injEq, reduceCtorEq, or_false] at hj
          omega
      · intro s' d o r hp
        rw [hc] at hp
        simp only [List.mem_append, List.mem_cons, List.mem_singleton, List.not_mem_nil,
          or_false] at hp
        rcases hp with hp | hp | hp
        · simpa [Event.isSetup] using setupCalls_isSetup hp
        · obtain ⟨j', s'', out, he, _, _⟩ := chainEvents_mem hp
          simp at he
        · simp at hp
  · rw [hc] at h
    simp only [List.mem_append, List.mem_cons, List.mem_singleton, List.not_mem_nil,
      or_false] at h
    rcases h with h | h | h
    · simpa [Event.isSetup] using setupCalls_isSetup h
    · obtain ⟨j, s', out, he, _, _⟩ := chainEvents_mem h
      simp at he
    · simp at h

/-- The method `Plan` makes the calls of `plan`, leaves its world and returns
its error. -/
theorem Plan_of_plan {σ : Type} (m : StateMigrator σ) (os : OS σ) (w : World σ) :
    (m.Plan os w).calls = (m.plan os w).calls ∧
    (m.Plan os w).world = (m.plan os w).world ∧
    (∀ e, (m.plan os w).result = .error e → (m.Plan os w).result = some e) ∧
    (∀ s, (m.plan os w).result = .ok s → (m.Plan os w).result = none) := by
  unfold StateMigrator.Plan
  split
  · next err w1 calls heq => simp [heq]
  · next s w1 calls heq => simp [heq]

/-- When `plan` fails, `Apply` returns its error and does nothing more. -/
theorem Apply_of_error {σ : Type} (m : StateMigrator σ) (os : OS σ) (w : World σ)
    (e : Error) (h : (m.plan os w).result = .error e) :
    (m.Apply os w).result = some e ∧
    (m.Apply os w).calls = (m.plan os w).calls ∧
    (m.Apply os w).world = (m.plan os w).world := by
  unfold StateMigrator.Apply
  split
  · next err w1 calls heq =>
    rw [heq] at h
    simp only [Except.error.injEq] at h
    simp [heq, h]
  · next s w1 calls heq =>
    rw [heq] at h
    simp at h

/-- When `plan` succeeds with `s`, `Apply` makes one more call, the push of `s`
at the world left by `plan`, and returns its result. -/
theorem Apply_of_ok {σ : Type} (m : StateMigrator σ) (os : OS σ) (w : World σ)
    (s : State) (h : (m.plan os w).result = .ok s) :
    (m.Apply os w).result = (m.tf.StatePush s (m.plan os w).world.ext).1 ∧
    (m.Apply os w).calls =
      (m.plan os w).calls ++ [.StatePush s (m.Apply os w).result] ∧
    (m.Apply os w).world.overrideFile = (m.plan os w).world.overrideFile := by
  unfold StateMigrator.Apply
  split
  · next err w1 calls heq =>
    rw [heq] at h
    simp at h
  · next s1 w1 calls heq =>
    rw [heq] at h
    simp only [Except.ok.injEq] at h
    subst h
    simp [heq]

/-! ## The claims about the state migrator -/

/-- An error result of the diff-check is never classified as a success. -/
theorem classify_some_ne_ok (s s1 : State) (e : Error) : classify s (some e) ≠ .ok s1 := by
  cases e with
  | exit code msg =>
    by_cases hc : code = 2
    · subst hc; simp [classify]
    · simp [classify, hc]
  | plain msg => simp [classify]

/-- An `ExitError` with exit code 2 is classified as the unexpected-diffs error. -/
theorem classify_exit_two (s : State) (e : Error) (h : e.ExitCode = some 2) :
    classify s (some e) =
      .error (Errorf "terraform plan command returns unexpected diffs: " e) := by
  cases e with
  | exit code msg =>
    simp only [Error.ExitCode, Option.some.injEq] at h
    subst h
    simp [classify, Errorf, Error.Message]
  | plain msg => simp [Error.ExitCode] at h

/-- Any other error of the diff-check is returned as it is. -/
theorem classify_other (s : State) (e : Error) (h : e.ExitCode ≠ some 2) :
    classify s (some e) = .error e := by
  cases e with
  | exit code msg =>
    have hc : code ≠ 2 := by
      intro hc; apply h; simp [Error.ExitCode, hc]
    simp [classify, hc]
  | plain msg => simp [classify]

/-- The calls of `Apply` are those of `plan`, followed by one push exactly when
`plan` succeeded. -/
theorem Apply_cases {σ : Type} (m : StateMigrator σ) (os : OS σ) (w : World σ) :
    (∃ e, (m.plan os w).result = .error e ∧ (m.Apply os w).result = some e ∧
      (m.Apply os w).calls = (m.plan os w).calls ∧
      (m.Apply os w).world = (m.plan os w).world) ∨
    (∃ s, (m.plan os w).result = .ok s ∧
      (m.Apply os w).result = (m.tf.StatePush s (m.plan os w).world.ext).1 ∧
      (m.Apply os w).calls = (m.plan os w).calls ++ [.StatePush s (m.Apply os w).result] ∧
      (m.Apply os w).world.overrideFile = (m.plan os w).world.overrideFile) := by
  cases hr : (m.plan os w).result with
  | error e =>
    obtain ⟨h1, h2, h3⟩ := Apply_of_error m os w e hr
    exact Or.inl ⟨e, rfl, h1, h2, h3⟩
  | ok s =>
    obtain ⟨h1, h2, h3⟩ := Apply_of_ok m os w s hr
    exact Or.inr ⟨s, rfl, h1, h2, h3⟩

/-- A call of `Apply` that is not a push is a call of `plan`. -/
theorem mem_plan_of_mem_Apply {σ : Type} (m : StateMigrator σ) (os : OS σ) (w : World σ)
    (ev : Event) (h : ev ∈ (m.Apply os w).calls) (hev : ev.isStatePush = false) :
    ev ∈ (m.plan os w).calls := by
  rcases Apply_cases m os w with ⟨e, _, _, hc, _⟩ | ⟨s, _, _, hc, _⟩
  · rwa [hc] at h
  · rw [hc] at h
    simp only [List.mem_append, List.mem_singleton] at h
    rcases h with h | h
    · exact h
    · subst h
      simp [Event.isStatePush] at hev

/-- C1: if the diff-check call of an `Apply` run returns an `ExitError` whose
exit code is 2, then `Apply` returns a non-nil error (the unexpected-diffs
error) and `tf.StatePush` is not invoked during that run, whatever the
migrator, the actions and the tool client are. -/
theorem Apply_unexpected_diff_never_pushes {σ : Type} (m : StateMigrator σ) (os : OS σ)
    (w : World σ) (s : State) (d : String) (o : List String) (e : Error)
    (hcall : Event.Plan s d o (some e) ∈ (m.Apply os w).calls)
    (hcode : e.ExitCode = some 2) :
    (m.Apply os w).result ≠ none ∧
    (m.Apply os w).result =
      some (Errorf "terraform plan command returns unexpected diffs: " e) ∧
    ∀ s' r, Event.StatePush s' r ∉ (m.Apply os w).calls := by
  have hp := mem_plan_of_mem_Apply m os w _ hcall rfl
  obtain ⟨v, s0, outs, r', _, _, _, _, hres, _, _⟩ := plan_of_diffCheck m os w s d o _ hp
  rw [classify_exit_two s e hcode] at hres
  obtain ⟨h1, h2, _⟩ := Apply_of_error m os w _ hres
  refine ⟨by simp [h1], h1, ?_⟩
  intro s' r hmem
  rw [h2] at hmem
  exact plan_no_push m os w s' r hmem

/-- C1 at the rejected-migration scenario: the diff-check exits with code 2. -/
theorem Apply_unexpected_diff_never_pushes_witness :
    (Event.Plan ⟨[0, 1]⟩ "" planOpts (some (.exit 2 "exit status 2")) ∈
        (diffMigrator.Apply plainOS freshWorld).calls ∧
      (Error.exit 2 "exit status 2").ExitCode = some 2) ∧
    ((diffMigrator.Apply plainOS freshWorld).result ≠ none ∧
      (diffMigrator.Apply plainOS freshWorld).result =
        some (Errorf "terraform plan command returns unexpected diffs: "
          (.exit 2 "exit status 2")) ∧
      ∀ s' r, Event.StatePush s' r ∉ (diffMigrator.Apply plainOS freshWorld).calls) :=
  ⟨⟨by decide, by decide⟩,
    Apply_unexpected_diff_never_pushes diffMigrator plainOS freshWorld ⟨[0, 1]⟩ "" planOpts
      (.exit 2 "exit status 2") (by decide) (by decide)⟩

/-- Extent of the departure from C2: in a run of `plan` that starts without the
override file, the file exists at the return exactly when the run stopped at
a failed `tf.Init` with `-reconfigure` right after writing the file; on every
other path the file is absent at the return. -/
theorem plan_overrideFile_iff {σ : Type} (m : StateMigrator σ) (os : OS σ) (w : World σ)
    (h : w.overrideFile = false) :
    (m.plan os w).world.overrideFile = true ↔
      ∃ version s0 e, (m.plan os w).calls =
        [.Version (.ok version), .Init "" initOpts none, .StatePull (.ok s0),
         .WriteFile (overrideFilePath m os) overrideContents 0o644 none,
         .Init "" reconfigureOpts (some e)] := by
  unfold StateMigrator.plan
  split
  · simp [h]
  split
  · simp [Outcome.after, h]
  split
  · simp [Outcome.after, h]
  split
  · simp [Outcome.after, h]
  split
  · simp [Outcome.after]
  · simp [Outcome.after, rollback]

/-- C2 (the code departs from it): starting without the override file, with a
tool client whose `Init` with `-reconfigure` fails right after the override
file was written, `Apply` and `Plan` return that error without any `Remove`
call and the override file still exists when they return. -/
theorem override_file_left_when_reconfigure_fails :
    freshWorld.overrideFile = false ∧
    (reinitFailMigrator.Apply plainOS freshWorld).result = some (.exit 1 "init failed") ∧
    (reinitFailMigrator.Apply plainOS freshWorld).calls =
      [.Version (.ok "1.0.0"), .Init "" initOpts none, .StatePull (.ok ⟨[0]⟩),
       .WriteFile "work/_tfmigrate_override.tf" overrideContents 0o644 none,
       .Init "" reconfigureOpts (some (.exit 1 "init failed"))] ∧
    (reinitFailMigrator.Apply plainOS freshWorld).world.overrideFile = true ∧
    (reinitFailMigrator.Plan plainOS freshWorld).result = some (.exit 1 "init failed") ∧
    (reinitFailMigrator.Plan plainOS freshWorld).world.overrideFile = true := by
  decide

/-- Conversely, when the preparation succeeds and the fold of the actions over
the pulled state gives `s`, the diff-check is made on `s`: its call, with what
`tf.Plan` returns there, is in the log of `plan` and of `Apply`. -/
theorem diffCheck_reached {σ : Type} (m : StateMigrator σ) (os : OS σ) (w : World σ)
    (version : String) (s0 s : State) (x x' : σ)
    (hprep : Prepared m os w version s0 x)
    (hthread : threadActions m.tf m.actions s0 x = (.ok s, x')) :
    Event.Plan s "" planOpts (m.tf.Plan s "" planOpts x').1 ∈ (m.plan os w).calls ∧
    Event.Plan s "" planOpts (m.tf.Plan s "" planOpts x').1 ∈ (m.Apply os w).calls := by
  have hplan : Event.Plan s "" planOpts (m.tf.Plan s "" planOpts x').1 ∈
      (m.plan os w).calls := by
    obtain ⟨x1, x2, x3, x4, hV, hI, hP, hW, hR⟩ := hprep
    have ht := applyActions_thread m.tf m.actions 0 s0 { ext := x, overrideFile := true }
    rw [hthread] at ht
    simp only [Prod.mk.injEq] at ht
    have hmig : Event.Plan s "" planOpts (m.tf.Plan s "" planOpts x').1 ∈
        (migrate m s0 { ext := x, overrideFile := true }).calls := by
      unfold migrate
      split
      · next err w1 calls heq =>
        rw [heq] at ht
        simp at ht
      · next newState w1 calls heq =>
        rw [heq] at ht
        simp only [Except.ok.injEq] at ht
        obtain ⟨hs, hx⟩ := ht
        subst hs hx
        obtain ⟨r, _, hc, _, hr⟩ := diffCheck_shape m.tf newState w1
        simp [hc, hr]
    unfold StateMigrator.plan
    simp only [hV, hI, hP, hW, hR, Outcome.after, rollback, List.mem_cons, List.mem_append]
    exact Or.inr (Or.inr (Or.inr (Or.inr (Or.inr (Or.inl hmig)))))
  refine ⟨hplan, ?_⟩
  rcases Apply_cases m os w with ⟨e, _, _, hc, _⟩ | ⟨s1, _, _, hc, _⟩
  · rwa [hc]
  · rw [hc]
    exact List.mem_append_left _ hplan

/-- C3: when the diff-check of an `Apply` run succeeds, the preparation
succeeded (version, both init calls, the state pull giving `s0`, and the
writing of the override file), every action succeeded, and the checked state
`s` is the fold of the actions from the left over `s0`: the log is the
preparation, one successful `StateUpdate` per action in order, the first
receiving `s0` and each next one the bytes of the state produced before it,
the diff-check, the rollback, and exactly one `tf.StatePush`, of `s` (which is
`s0` when there is no action); `Apply` returns the result of that push. -/
theorem Apply_happy_path_pushes_once {σ : Type} (m : StateMigrator σ) (os : OS σ)
    (w : World σ) (s : State) (d : String) (o : List String)
    (h : Event.Plan s d o none ∈ (m.Apply os w).calls) :
    ∃ version s0 outs r', outs.length = m.actions.length ∧ s = chainFinal s0 outs ∧
      (∃ x x', Prepared m os w version s0 x ∧
        threadActions m.tf m.actions s0 x = (.ok s, x')) ∧
      (m.actions = [] → s = s0) ∧
      (m.Apply os w).calls =
        setupCalls (overrideFilePath m os) version s0 ++
          (chainEvents 0 s0 outs ++
            [.Plan s "" planOpts none, .Remove (overrideFilePath m os),
             .Init "" reconfigureOpts r', .StatePush s (m.Apply os w).result]) ∧
      pushes (m.Apply os w).calls = [.StatePush s (m.Apply os w).result] ∧
      (m.Apply os w).result = (m.tf.StatePush s (m.plan os w).world.ext).1 := by
  have hp := mem_plan_of_mem_Apply m os w _ h rfl
  obtain ⟨v, s0, outs, r', hl, hs, _, _, hres, hc, _, x, x', hprep, hthread, _⟩ :=
    plan_of_diffCheck m os w s d o _ hp
  obtain ⟨h1, h2, _⟩ := Apply_of_ok m os w s hres
  refine ⟨v, s0, outs, r', hl, hs, ⟨x, x', hprep, hthread⟩, ?_, ?_, ?_, h1⟩
  · intro hnil
    rw [hnil] at hl
    have hout : outs = [] := List.length_eq_zero.mp hl
    rw [hs, hout]
    rfl
  · rw [h2, hc]; simp
  · rw [h2, hc]
    simp only [pushes, List.filter_append]
    have hch := pushes_chainEvents 0 s0 outs
    simp only [pushes] at hch
    rw [hch]
    simp [setupCalls, Event.isStatePush]

/-- C3 at the happy-path scenario: one action turning `[0]` into `[0, 1]`. -/
theorem Apply_happy_path_pushes_once_witness :
    Event.Plan ⟨[0, 1]⟩ "" planOpts none ∈ (happyMigrator.Apply plainOS freshWorld).calls ∧
    (happyMigrator.Apply plainOS freshWorld).result = none ∧
    ∃ version s0 outs r', outs.length = happyMigrator.actions.length ∧
      (⟨[0, 1]⟩ : State) = chainFinal s0 outs ∧
      (∃ x x', Prepared happyMigrator plainOS freshWorld version s0 x ∧
        threadActions happyMigrator.tf happyMigrator.actions s0 x = (.ok ⟨[0, 1]⟩, x')) ∧
      (happyMigrator.actions = [] → (⟨[0, 1]⟩ : State) = s0) ∧
      (happyMigrator.Apply plainOS freshWorld).calls =
        setupCalls (overrideFilePath happyMigrator plainOS) version s0 ++
          (chainEvents 0 s0 outs ++
            [.Plan ⟨[0, 1]⟩ "" planOpts none,
             .Remove (overrideFilePath happyMigrator plainOS),
             .Init "" reconfigureOpts r',
             .StatePush ⟨[0, 1]⟩ (happyMigrator.Apply plainOS freshWorld).result]) ∧
      pushes (happyMigrator.Apply plainOS freshWorld).calls =
        [.StatePush ⟨[0, 1]⟩ (happyMigrator.Apply plainOS freshWorld).result] ∧
      (happyMigrator.Apply plainOS freshWorld).result =
        (happyMigrator.tf.StatePush ⟨[0, 1]⟩
          (happyMigrator.plan plainOS freshWorld).world.ext).1 :=
  ⟨by decide, by decide,
    Apply_happy_path_pushes_once happyMigrator plainOS freshWorld ⟨[0, 1]⟩ "" planOpts
      (by decide)⟩

/-- C4: when an action's `StateUpdate` returns an error during a `Plan` or an
`Apply` run, both runs return that error, every earlier action succeeded, no
action after it is executed, the diff-check `tf.Plan` is never invoked and
`tf.StatePush` is never invoked. -/
theorem action_error_aborts_run {σ : Type} (m : StateMigrator σ) (os : OS σ)
    (w : World σ) (k : Nat) (s : State) (e : Error)
    (h : Event.StateUpdate k s (.error e) ∈ (m.Plan os w).calls ∨
      Event.StateUpdate k s (.error e) ∈ (m.Apply os w).calls) :
    ((m.Plan os w).result = some e ∧ (m.Apply os w).result = some e) ∧
    (m.Apply os w).calls = (m.Plan os w).calls ∧
    (∀ j s' r, Event.StateUpdate j s' r ∈ (m.Plan os w).calls →
      j ≤ k ∧ (j < k → ∃ out, r = .ok out)) ∧
    (∀ s' d o r, Event.Plan s' d o r ∉ (m.Plan os w).calls) ∧
    (∀ s' r, Event.StatePush s' r ∉ (m.Plan os w).calls) := by
  obtain ⟨hPc, _, hPe, _⟩ := Plan_of_plan m os w
  have hp : Event.StateUpdate k s (.error e) ∈ (m.plan os w).calls := by
    rcases h with h | h
    · rwa [hPc] at h
    · exact mem_plan_of_mem_Apply m os w _ h rfl
  obtain ⟨hres, hle, hok, hnp⟩ := plan_of_actionError m os w k s e hp
  obtain ⟨h1, h2, _⟩ := Apply_of_error m os w e hres
  rw [hPc]
  refine ⟨⟨hPe e hres, h1⟩, h2, ?_, hnp, ?_⟩
  · intro j s' r hj
    exact ⟨hle j s' r hj, hok j s' r hj⟩
  · intro s' r
    exact plan_no_push m os w s' r

/-- C4 at a run whose second action of three fails. -/
theorem action_error_aborts_run_witness :
    Event.StateUpdate 1 ⟨[0, 1]⟩ (.error (.plain "action failed")) ∈
      (failingMigrator.Apply plainOS freshWorld).calls ∧
    (((failingMigrator.Plan plainOS freshWorld).result = some (.plain "action failed") ∧
      (failingMigrator.Apply plainOS freshWorld).result = some (.plain "action failed")) ∧
    (failingMigrator.Apply plainOS freshWorld).calls =
      (failingMigrator.Plan plainOS freshWorld).calls ∧
    (∀ j s' r, Event.StateUpdate j s' r ∈ (failingMigrator.Plan plainOS freshWorld).calls →
      j ≤ 1 ∧ (j < 1 → ∃ out, r = .ok out)) ∧
    (∀ s' d o r, Event.Plan s' d o r ∉ (failingMigrator.Plan plainOS freshWorld).calls) ∧
    (∀ s' r, Event.StatePush s' r ∉ (failingMigrator.Plan plainOS freshWorld).calls)) :=
  ⟨by decide,
    action_error_aborts_run failingMigrator plainOS freshWorld 1 ⟨[0, 1]⟩
      (.plain "action failed") (Or.inr (by decide))⟩

/-- C5: `Plan` never invokes `tf.StatePush`; when `Plan` returns an error,
`Apply` returns the same error after exactly the same calls, leaving the same
world; when `Plan` returns no error, `Apply` makes exactly the calls of `Plan`
followed by one `tf.StatePush`, whose result it returns; so the push is made
if and only if `Plan` returns no error. -/
theorem Plan_Apply_same_pipeline {σ : Type} (m : StateMigrator σ) (os : OS σ)
    (w : World σ) :
    (∀ s r, Event.StatePush s r ∉ (m.Plan os w).calls) ∧
    (∀ e, (m.Plan os w).result = some e →
      (m.Apply os w).result = some e ∧ (m.Apply os w).calls = (m.Plan os w).calls ∧
        (m.Apply os w).world = (m.Plan os w).world) ∧
    ((m.Plan os w).result = none →
      ∃ s, (m.Apply os w).calls =
          (m.Plan os w).calls ++ [.StatePush s (m.Apply os w).result] ∧
        (m.Apply os w).world.overrideFile = (m.Plan os w).world.overrideFile) ∧
    ((∃ s r, Event.StatePush s r ∈ (m.Apply os w).calls) ↔ (m.Plan os w).result = none) := by
  obtain ⟨hPc, hPw, hPe, hPo⟩ := Plan_of_plan m os w
  rw [hPc, hPw]
  have hnp : ∀ s r, Event.StatePush s r ∉ (m.plan os w).calls :=
    fun s r => plan_no_push m os w s r
  rcases Apply_cases m os w with ⟨e, hr, hres, hc, hw⟩ | ⟨s, hr, hres, hc, hw⟩
  · have hP := hPe e hr
    refine ⟨hnp, ?_, ?_, ?_⟩
    · intro e' he'
      rw [hP] at he'
      simp only [Option.some.injEq] at he'
      subst he'
      exact ⟨hres, hc, hw⟩
    · intro hn
      rw [hP] at hn
      simp at hn
    · rw [hP, hc]
      constructor
      · rintro ⟨s, r, hmem⟩
        exact absurd hmem (hnp s r)
      · intro hn
        simp at hn
  · have hP := hPo s hr
    refine ⟨hnp, ?_, ?_, ?_⟩
    · intro e' he'
      rw [hP] at he'
      simp at he'
    · intro _
      exact ⟨s, hc, hw⟩
    · rw [hP]
      constructor
      · intro _; rfl
      · intro _
        exact ⟨s, (m.Apply os w).result, by rw [hc]; simp⟩

/-- C5 at the rejected migration (`Plan` fails, `Apply` makes the same calls)
and at the happy path (`Plan` succeeds, `Apply` adds one push). -/
theorem Plan_Apply_same_pipeline_witness :
    ((diffMigrator.Plan plainOS freshWorld).result =
        some (Errorf "terraform plan command returns unexpected diffs: "
          (.exit 2 "exit status 2")) ∧
      (diffMigrator.Apply plainOS freshWorld).result =
        some (Errorf "terraform plan command returns unexpected diffs: "
          (.exit 2 "exit status 2")) ∧
      (diffMigrator.Apply plainOS freshWorld).calls =
        (diffMigrator.Plan plainOS freshWorld).calls) ∧
    ((happyMigrator.Plan plainOS freshWorld).result = none ∧
      ∃ s, (happyMigrator.Apply plainOS freshWorld).calls =
          (happyMigrator.Plan plainOS freshWorld).calls ++
            [.StatePush s (happyMigrator.Apply plainOS freshWorld).result] ∧
        (happyMigrator.Apply plainOS freshWorld).world.overrideFile =
          (happyMigrator.Plan plainOS freshWorld).world.overrideFile) :=
  ⟨⟨by decide,
      ((Plan_Apply_same_pipeline diffMigrator plainOS freshWorld).2.1
        (Errorf "terraform plan command returns unexpected diffs: " (.exit 2 "exit status 2"))
        (by decide)).1,
      ((Plan_Apply_same_pipeline diffMigrator plainOS freshWorld).2.1
        (Errorf "terraform plan command returns unexpected diffs: " (.exit 2 "exit status 2"))
        (by decide)).2.1⟩,
    by decide,
    (Plan_Apply_same_pipeline happyMigrator plainOS freshWorld).2.2.1 (by decide)⟩

/-- A successful `plan` made every call of the pipeline: the preparation, a
full chain of actions, a diff-check without error and the rollback. -/
theorem plan_ok_shape {σ : Type} (m : StateMigrator σ) (os : OS σ) (w : World σ)
    (s : State) (h : (m.plan os w).result = .ok s) :
    ∃ version s0 outs r', outs.length = m.actions.length ∧ s = chainFinal s0 outs ∧
      (m.plan os w).calls =
        setupCalls (overrideFilePath m os) version s0 ++
          (chainEvents 0 s0 outs ++
            [.Plan s "" planOpts none,
             .Remove (overrideFilePath m os), .Init "" reconfigureOpts r']) ∧
      (m.plan os w).world.overrideFile = false := by
  rcases plan_shape m os w with ⟨e, hr, _⟩ | ⟨v, s0, outs, e, r', _, hr, _, _⟩ |
    ⟨v, s0, outs, r0, r', hl, hr, hc, hw⟩
  · rw [hr] at h; simp at h
  · rw [hr] at h; simp at h
  · rw [hr] at h
    cases r0 with
    | some e => exact absurd h (classify_some_ne_ok _ _ _)
    | none =>
      simp only [classify, Except.ok.injEq] at h
      subst h
      exact ⟨v, s0, outs, r', hl, rfl, hc, hw.1⟩

/-- C9: the diff-check outcome is classified three ways by `plan`.  When the
log of `plan` holds the diff-check call on state `s` with result `r`: `s` is
the migrated state (the pulled state threaded through every action); if `r`
is no error, `plan` returns `s`; if `r` is an `ExitError` with exit code 2,
`plan` returns a new error whose message is
`terraform plan command returns unexpected diffs: ` followed by the message of
the original error; for every other error `plan` returns that error
unchanged. -/
theorem plan_classifies_diff_check {σ : Type} (m : StateMigrator σ) (os : OS σ)
    (w : World σ) (s : State) (d : String) (o : List String) (r : Option Error)
    (h : Event.Plan s d o r ∈ (m.plan os w).calls) :
    (∃ s0 outs, outs.length = m.actions.length ∧ s = chainFinal s0 outs ∧
      Event.StatePull (.ok s0) ∈ (m.plan os w).calls ∧
      ∀ ev ∈ chainEvents 0 s0 outs, ev ∈ (m.plan os w).calls) ∧
    (r = none → (m.plan os w).result = .ok s) ∧
    (∀ e, r = some e → e.ExitCode = some 2 →
      (m.plan os w).result =
        .error (.plain ("terraform plan command returns unexpected diffs: " ++ e.Message))) ∧
    (∀ e, r = some e → e.ExitCode ≠ some 2 → (m.plan os w).result = .error e) := by
  obtain ⟨v, s0, outs, r', hl, hs, _, _, hres, hc, _⟩ := plan_of_diffCheck m os w s d o r h
  refine ⟨⟨s0, outs, hl, hs, ?_, ?_⟩, ?_, ?_, ?_⟩
  · rw [hc]; simp [setupCalls]
  · intro ev hev
    rw [hc]
    simp [hev]
  · intro hr
    subst hr
    simpa [classify] using hres
  · intro e hr hcode
    subst hr
    rw [hres, classify_exit_two s e hcode]
    rfl
  · intro e hr hcode
    subst hr
    rw [hres, classify_other s e hcode]

/-- C9 at three runs: no diff, exit code 2, exit code 1. -/
theorem plan_classifies_diff_check_witness :
    (happyMigrator.plan plainOS freshWorld).result = .ok ⟨[0, 1]⟩ ∧
    (diffMigrator.plan plainOS freshWorld).result =
      .error (.plain ("terraform plan command returns unexpected diffs: " ++
        (Error.exit 2 "exit status 2").Message)) ∧
    (brokenPlanMigrator.plan plainOS freshWorld).result =
      .error (.exit 1 "exit status 1") :=
  ⟨(plan_classifies_diff_check happyMigrator plainOS freshWorld ⟨[0, 1]⟩ "" planOpts none
      (by decide)).2.1 rfl,
    (plan_classifies_diff_check diffMigrator plainOS freshWorld ⟨[0, 1]⟩ "" planOpts
      (some (.exit 2 "exit status 2")) (by decide)).2.2.1 _ rfl (by decide),
    (plan_classifies_diff_check brokenPlanMigrator plainOS freshWorld ⟨[0, 1]⟩ "" planOpts
      (some (.exit 1 "exit status 1")) (by decide)).2.2.2 _ rfl (by decide)⟩

/-- C10: every `tf.StatePush` of an `Apply` run is its last call and comes
right after the rollback, that is after the `Remove` of the override file and
the `tf.Init` with `-reconfigure` that follows it; no push precedes them and
the override file is absent when the push is issued and when `Apply` returns.
The push is made exactly when the diff-check returned no error, so whatever
the cleanup `tf.Init` returned plays no part in it. -/
theorem push_only_after_cleanup {σ : Type} (m : StateMigrator σ) (os : OS σ)
    (w : World σ) :
    (∀ s r, Event.StatePush s r ∈ (m.Apply os w).calls →
      ∃ pre r', (m.Apply os w).calls =
          pre ++ [.Remove (overrideFilePath m os),
                  .Init "" reconfigureOpts r', .StatePush s r] ∧
        (∀ s' r'', Event.StatePush s' r'' ∉ pre) ∧
        (m.plan os w).world.overrideFile = false ∧
        r = (m.tf.StatePush s (m.plan os w).world.ext).1 ∧
        (m.Apply os w).world.overrideFile = false) ∧
    ((∃ s r, Event.StatePush s r ∈ (m.Apply os w).calls) ↔
      ∃ s d o, Event.Plan s d o none ∈ (m.Apply os w).calls) := by
  constructor
  · intro s r hmem
    rcases Apply_cases m os w with ⟨e, _, _, hc, _⟩ | ⟨s1, hr, hres, hc, hw⟩
    · rw [hc] at hmem
      exact absurd hmem (plan_no_push m os w s r)
    · have hmem' := hmem
      rw [hc] at hmem'
      simp only [List.mem_append, List.mem_singleton] at hmem'
      rcases hmem' with hmem' | hmem'
      · exact absurd hmem' (plan_no_push m os w s r)
      · simp only [Event.StatePush.injEq] at hmem'
        obtain ⟨hs, hrr⟩ := hmem'
        subst hs
        obtain ⟨v, s0, outs, r', _, _, hpc, hpw⟩ := plan_ok_shape m os w s hr
        refine ⟨setupCalls (overrideFilePath m os) v s0 ++
            (chainEvents 0 s0 outs ++ [.Plan s "" planOpts none]), r', ?_, ?_, hpw,
          by rw [hrr, hres], by rw [hw, hpw]⟩
        · rw [hc, hpc, hrr]; simp
        · intro s' r'' hin
          simp only [List.mem_append, List.mem_singleton] at hin
          rcases hin with hin | hin | hin
          · simpa [Event.isSetup] using setupCalls_isSetup hin
          · obtain ⟨j, s'', out, he, _, _⟩ := chainEvents_mem hin
            simp at he
          · simp at hin
  · constructor
    · rintro ⟨s, r, hmem⟩
      rcases Apply_cases m os w with ⟨e, _, _, hc, _⟩ | ⟨s1, hr, _, hc, _⟩
      · rw [hc] at hmem
        exact absurd hmem (plan_no_push m os w s r)
      · obtain ⟨v, s0, outs, r', _, _, hpc, _⟩ := plan_ok_shape m os w s1 hr
        exact ⟨s1, "", planOpts, by rw [hc, hpc]; simp⟩
    · rintro ⟨s, d, o, hmem⟩
      have hp := mem_plan_of_mem_Apply m os w _ hmem rfl
      obtain ⟨v, s0, outs, r', _, _, _, _, hres, _, _⟩ := plan_of_diffCheck m os w s d o _ hp
      obtain ⟨_, h2, _⟩ := Apply_of_ok m os w s hres
      exact ⟨s, (m.Apply os w).result, by rw [h2]; simp⟩

/-- C10 at a run whose cleanup `tf.Init` fails: the push is made all the same,
after the override file was removed. -/
theorem push_only_after_cleanup_witness :
    Event.Init "" reconfigureOpts (some (.exit 1 "init failed")) ∈
      (cleanupFailMigrator.Apply plainOS freshWorld).calls ∧
    Event.StatePush ⟨[0, 1]⟩ none ∈ (cleanupFailMigrator.Apply plainOS freshWorld).calls ∧
    ∃ pre r', (cleanupFailMigrator.Apply plainOS freshWorld).calls =
        pre ++ [.Remove (overrideFilePath cleanupFailMigrator plainOS),
                .Init "" reconfigureOpts r', .StatePush ⟨[0, 1]⟩ none] ∧
      (∀ s' r'', Event.StatePush s' r'' ∉ pre) ∧
      (cleanupFailMigrator.plan plainOS freshWorld).world.overrideFile = false ∧
      none = (cleanupFailMigrator.tf.StatePush ⟨[0, 1]⟩
        (cleanupFailMigrator.plan plainOS freshWorld).world.ext).1 ∧
      (cleanupFailMigrator.Apply plainOS freshWorld).world.overrideFile = false :=
  ⟨by decide, by decide,
    (push_only_after_cleanup cleanupFailMigrator plainOS freshWorld).1 ⟨[0, 1]⟩ none
      (by decide)⟩

/-! ## The claims about the history ledger -/

/-- C6: after `h.Add id r`, `Contains id` is true and the record stored under
`id` is `r`; every other identifier `id'` maps to what it mapped to before, so
`Contains id'` is unchanged; a second `Add id r2` replaces `r` by `r2` under
the same single key: the result is what adding `r2` alone gives, and `Length`
does not grow. -/
theorem History_Add_overwrites (h : History) (id id' : String) (r r2 : Record)
    (hne : id' ≠ id) :
    (h.Add id r).Contains id = true ∧
    (h.Add id r).records.lookup id = some r ∧
    (h.Add id r).records.lookup id' = h.records.lookup id' ∧
    (h.Add id r).Contains id' = h.Contains id' ∧
    ((h.Add id r).Add id r2).records.lookup id = some r2 ∧
    (h.Add id r).Add id r2 = h.Add id r2 ∧
    ((h.Add id r).Add id r2).Length = (h.Add id r).Length := by
  refine ⟨?_, ?_, ?_, ?_, ?_, ?_, ?_⟩
  · simp [History.Add, History.Contains]
  · simp [History.Add]
  · simp [History.Add, AList.lookup_insert_ne hne]
  · simp [History.Add, History.Contains, AList.lookup_insert_ne hne]
  · simp [History.Add]
  · simp [History.Add, AList.insert_insert]
  · simp [History.Add, History.Length, AList.insert_insert]

/-- C6 at the duplicated-record case of the tests. -/
theorem History_Add_overwrites_witness :
    "20201012030303_foo.hcl" ≠ "20201012010101_foo.hcl" ∧
    (sampleHistory.Add "20201012010101_foo.hcl" ⟨"state", "bar", 2⟩).Contains
      "20201012010101_foo.hcl" = true ∧
    (sampleHistory.Add "20201012010101_foo.hcl" ⟨"state", "bar", 2⟩).Contains
      "20201012030303_foo.hcl" = false ∧
    (sampleHistory.Add "20201012010101_foo.hcl" ⟨"state", "bar", 2⟩).Length = 1 ∧
    ((sampleHistory.Add "20201012010101_foo.hcl" ⟨"state", "bar", 2⟩).Add
      "20201012010101_foo.hcl" ⟨"state", "baz", 3⟩).Length = 1 :=
  have hw := History_Add_overwrites sampleHistory "20201012010101_foo.hcl"
    "20201012030303_foo.hcl" ⟨"state", "bar", 2⟩ ⟨"state", "baz", 3⟩ (by decide)
  ⟨by decide, hw.1, hw.2.2.2.1.trans (by decide), by decide,
    hw.2.2.2.2.2.2.trans (by decide)⟩

/-- C7: `h.Delete id` leaves a mapping with no record for `id` in which every
other identifier `id'` maps to what it mapped to before; when `id` is absent,
the mapping is unchanged. -/
theorem History_Delete_frame (h : History) (id id' : String) (hne : id' ≠ id) :
    (h.Delete id).records.lookup id = none ∧
    (h.Delete id).Contains id = false ∧
    (h.Delete id).records.lookup id' = h.records.lookup id' ∧
    (h.Delete id).Contains id' = h.Contains id' ∧
    (h.Contains id = false → h.Delete id = h) := by
  refine ⟨?_, ?_, ?_, ?_, ?_⟩
  · simp [History.Delete]
  · simp [History.Delete, History.Contains]
  · simp [History.Delete, AList.lookup_erase_ne hne]
  · simp [History.Delete, History.Contains, AList.lookup_erase_ne hne]
  · intro hc
    have hmem : id ∉ h.records := by
      rw [← AList.lookup_isSome]
      simpa [History.Contains] using hc
    cases h with
    | mk recs =>
      simp only [History.Delete, History.mk.injEq]
      apply AList.ext
      simp only [AList.erase]
      exact List.kerase_of_not_mem_keys hmem

/-- C7 at the non-existent-record case of the tests. -/
theorem History_Delete_frame_witness :
    ("20201012010101_foo.hcl" ≠ "20201012030303_foo.hcl" ∧
      sampleHistory.Contains "20201012030303_foo.hcl" = false) ∧
    (sampleHistory.Delete "20201012030303_foo.hcl").Contains
      "20201012010101_foo.hcl" = true ∧
    sampleHistory.Delete "20201012030303_foo.hcl" = sampleHistory :=
  have hw := History_Delete_frame sampleHistory "20201012030303_foo.hcl"
    "20201012010101_foo.hcl" (by decide)
  ⟨⟨by decide, by decide⟩, hw.2.2.2.1.trans (by decide), hw.2.2.2.2 (by decide)⟩

/-- C8: `Length` is the number of distinct identifiers that have a record, and
after `Clear` the mapping is empty: no identifier is contained and `Length`
is 0. -/
theorem History_Length_Clear (h : History) :
    (∃ ids : Finset String, (∀ id, id ∈ ids ↔ h.Contains id = true) ∧
      h.Length = ids.card) ∧
    h.Clear.records = ∅ ∧
    (∀ id, h.Clear.Contains id = false) ∧
    h.Clear.Length = 0 := by
  refine ⟨⟨h.records.keys.toFinset, ?_, ?_⟩, rfl, ?_, ?_⟩
  · intro id
    simp [History.Contains, AList.lookup_isSome, AList.mem_keys]
  · rw [List.toFinset_card_of_nodup h.records.keys_nodup]
    simp [History.Length, AList.keys, List.keys]
  · intro id
    simp [History.Clear, History.Contains]
  · simp [History.Clear, History.Length]

end Tfmigrate
